import Mathlib

/-!
Shallow embedding of the data-preparation pipeline and the numeric
formatter of `app.py` (COVID-19 dashboard).

Modelling conventions:
* CSV numeric cells are IEEE doubles in the source; finite values are
  modelled as exact rationals (`ℚ`).  The results of the elementwise
  divisions in the pipeline can be NaN or a signed infinity (numpy float
  semantics: `0/0 = NaN`, `x/0 = ±inf` for `x ≠ 0`), so derived rate
  fields live in an extended value type `EVal`.
* `NaN` cells of the five key CSV columns are modelled as `Option`
  fields of a raw row (`none` = missing); `df.dropna(subset=[...])`
  keeps exactly the rows whose five fields are all present.
* Dates are modelled as naturals that preserve the calendar order
  (`parse_dates` only matters for ordering here).
* `pandas.sort_values(['location','date'])` is modelled by an
  insertion sort on the lexicographic (location, date) order.
* `.round(2)` / Python `f"{x:.1f}"` / `f"{x:,.0f}"` round half to even,
  which is modelled exactly on rationals by `roundHalfEven`.
* `groupby('location')` groups rows by equality of the `location` value
  and aligns the derived column back by row position, which is modelled
  by `enrichFrom`: each row is enriched against the subsequence of rows
  sharing its location (`diff().fillna(0)` = difference with the
  previous row of the group, 0 for the first row of a group;
  `rolling(window=7, min_periods=1).mean()` = mean of the trailing ≤ 7
  group values).
* the `try/except` of `load_and_prepare_data` is modelled by taking the
  parse outcome as an `Except` argument; the `except` branch returns the
  empty table together with the printed log line.
-/

namespace Covid

/-- Extended value domain for the derived rate columns: a finite rational,
NaN, or a signed infinity (numpy float division semantics). -/
inductive EVal where
  | fin (q : ℚ)
  | nan
  | inf
  | ninf
deriving DecidableEq, Repr

/-- Elementwise float division as numpy performs it on the data columns:
`0/0` is NaN, `x/0` is `±inf` for `x ≠ 0`, otherwise exact. -/
def fdiv (a b : ℚ) : EVal :=
  if b = 0 then
    (if a = 0 then EVal.nan else if 0 < a then EVal.inf else EVal.ninf)
  else EVal.fin (a / b)

/-- Multiplication of an extended value by a finite scalar (the `* 100`
and `* 1_000_000` factors of the source). -/
def escale (v : EVal) (c : ℚ) : EVal :=
  match v with
  | EVal.fin q => EVal.fin (q * c)
  | EVal.nan => EVal.nan
  | EVal.inf => if 0 < c then EVal.inf else if c < 0 then EVal.ninf else EVal.nan
  | EVal.ninf => if 0 < c then EVal.ninf else if c < 0 then EVal.inf else EVal.nan

/-- Round to the nearest integer, ties to even (IEEE default, used by
`numpy.round` and Python `format`). -/
def roundHalfEven (x : ℚ) : ℤ :=
  if x - (⌊x⌋ : ℚ) < 1/2 then ⌊x⌋
  else if 1/2 < x - (⌊x⌋ : ℚ) then ⌊x⌋ + 1
  else if ⌊x⌋ % 2 = 0 then ⌊x⌋ else ⌊x⌋ + 1

/-- `Series.round(2)`: round to 2 decimal places, ties to even. -/
def round2 (x : ℚ) : ℚ := (roundHalfEven (x * 100) : ℚ) / 100

/-- `.round(2)` on an extended value: NaN and infinities pass through. -/
def eround2 : EVal → EVal
  | EVal.fin q => EVal.fin (round2 q)
  | v => v

/-- One raw CSV row restricted to the columns the pipeline touches; a
`none` field is a NaN/missing cell. -/
structure RawRow where
  location : Option String
  date : Option Nat
  total_cases : Option ℚ
  total_deaths : Option ℚ
  population : Option ℚ
deriving DecidableEq, Repr

/-- A row that survived `dropna(subset=['date','location','total_cases',
'total_deaths','population'])`: all five fields present. -/
structure CleanRow where
  location : String
  date : Nat
  total_cases : ℚ
  total_deaths : ℚ
  population : ℚ
deriving DecidableEq, Repr

/-- Default row used with `List.getD` (never reached under the index
bounds established in the lemmas). -/
def cleanDefault : CleanRow :=
  { location := "", date := 0, total_cases := 0, total_deaths := 0, population := 0 }

/-- `dropna` on one row: keep it (with unwrapped fields) iff all five key
columns are present. -/
def toClean (r : RawRow) : Option CleanRow :=
  match r.location, r.date, r.total_cases, r.total_deaths, r.population with
  | some l, some d, some tc, some td, some p =>
      some { location := l, date := d, total_cases := tc, total_deaths := td, population := p }
  | _, _, _, _, _ => none

/-- Lexicographic (location, date) order used by
`sort_values(['location', 'date'])`. -/
def rowLe (a b : CleanRow) : Prop :=
  a.location < b.location ∨ (a.location = b.location ∧ a.date ≤ b.date)

instance : DecidableRel rowLe := fun a b => by
  unfold rowLe
  infer_instance

instance : IsTotal CleanRow rowLe where
  total a b := by
    rcases lt_trichotomy a.location b.location with h | h | h
    · exact Or.inl (Or.inl h)
    · rcases Nat.le_total a.date b.date with hd | hd
      · exact Or.inl (Or.inr ⟨h, hd⟩)
      · exact Or.inr (Or.inr ⟨h.symm, hd⟩)
    · exact Or.inr (Or.inl h)

instance : IsTrans CleanRow rowLe where
  trans a b c hab hbc := by
    rcases hab with h1 | ⟨h1, d1⟩
    · rcases hbc with h2 | ⟨h2, _⟩
      · exact Or.inl (h1.trans h2)
      · exact Or.inl (h2 ▸ h1)
    · rcases hbc with h2 | ⟨h2, d2⟩
      · exact Or.inl (h1 ▸ h2)
      · exact Or.inr ⟨h1.trans h2, d1.trans d2⟩

/-- `df.sort_values(['location', 'date'])`. -/
def sortRows (l : List CleanRow) : List CleanRow := List.insertionSort rowLe l

/-- Value of the `new_cases` column at position `k` of one location's
series `s`: `groupby('location')['total_cases'].diff().fillna(0)`. -/
def newCasesAt (s : List CleanRow) (k : Nat) : ℚ :=
  if k = 0 then 0
  else (s.getD k cleanDefault).total_cases - (s.getD (k - 1) cleanDefault).total_cases

/-- Value of the `new_deaths` column at position `k` of one location's
series `s`: `groupby('location')['total_deaths'].diff().fillna(0)`. -/
def newDeathsAt (s : List CleanRow) (k : Nat) : ℚ :=
  if k = 0 then 0
  else (s.getD k cleanDefault).total_deaths - (s.getD (k - 1) cleanDefault).total_deaths

/-- Positions covered by the trailing window of `rolling(window=7,
min_periods=1)` at position `k`: `max 0 (k-6), ..., k` (truncated
subtraction realises the `max`). -/
def windowIdx (k : Nat) : List Nat := List.range' (k - 6) (k - (k - 6) + 1)

/-- Trailing moving average of `f` over positions `max 0 (k-6) .. k`
(`rolling(window=7, min_periods=1).mean()`). -/
def roll7 (f : Nat → ℚ) (k : Nat) : ℚ :=
  ((windowIdx k).map f).sum / ((windowIdx k).length : ℚ)

/-- One fully derived output row of the pipeline. -/
structure EnrichedRow where
  location : String
  date : Nat
  total_cases : ℚ
  total_deaths : ℚ
  population : ℚ
  case_fatality_rate : EVal
  cases_per_million : EVal
  deaths_per_million : EVal
  new_cases : ℚ
  new_deaths : ℚ
  new_cases_7day : ℚ
  new_deaths_7day : ℚ
deriving DecidableEq, Repr

/-- Derive all columns for the row `r` sitting at position `k` of its
location's series `s` (lines 30-40 of `app.py`). -/
def enrichAux (s : List CleanRow) (k : Nat) (r : CleanRow) : EnrichedRow :=
  { location := r.location
    date := r.date
    total_cases := r.total_cases
    total_deaths := r.total_deaths
    population := r.population
    case_fatality_rate := eround2 (escale (fdiv r.total_deaths r.total_cases) 100)
    cases_per_million := eround2 (escale (fdiv r.total_cases r.population) 1000000)
    deaths_per_million := eround2 (escale (fdiv r.total_deaths r.population) 1000000)
    new_cases := newCasesAt s k
    new_deaths := newDeathsAt s k
    new_cases_7day := roll7 (newCasesAt s) k
    new_deaths_7day := roll7 (newDeathsAt s) k }

/-- Enrich the rows of `rest` in order.  `all` is the full frame (used to
recover each row's location group, as `groupby('location')` does) and
`seen` the rows preceding `rest` in the frame, so a row's position inside
its group is the number of earlier rows sharing its location. -/
def enrichFrom (all : List CleanRow) (seen : List CleanRow) : List CleanRow → List EnrichedRow
  | [] => []
  | r :: rest =>
      enrichAux (all.filter fun s => s.location = r.location)
          ((seen.filter fun s => s.location = r.location).length) r ::
        enrichFrom all (seen ++ [r]) rest

/-- Columnwise derivation over the whole frame (lines 30-40 of
`app.py`): every row is enriched against its own location's series. -/
def enrich (rows : List CleanRow) : List EnrichedRow := enrichFrom rows [] rows

/-- Enrich a single-location series starting at in-group position `k`. -/
def enrichSeriesFrom (s : List CleanRow) (k : Nat) : List CleanRow → List EnrichedRow
  | [] => []
  | r :: rest => enrichAux s k r :: enrichSeriesFrom s (k + 1) rest

/-- Enrich a single-location series positionally. -/
def enrichSeries (s : List CleanRow) : List EnrichedRow := enrichSeriesFrom s 0 s

/-- The body of `load_and_prepare_data` after a successful parse:
dropna, sort by (location, date), derive all columns. -/
def prepare (rows : List RawRow) : List EnrichedRow :=
  enrich (sortRows (rows.filterMap toClean))

/-- `load_and_prepare_data`, with the parse outcome of
`pd.read_csv(...)` made explicit as an `Except` argument.  The result is
the prepared table together with the list of log lines printed; the
`except` branch yields the empty table and the logged error. -/
def load_and_prepare_data (src : Except String (List RawRow)) :
    List EnrichedRow × List String :=
  match src with
  | Except.ok rows => (prepare rows, [])
  | Except.error msg => ([], ["Error loading data: " ++ msg])

/-- Split a reversed digit list into groups of three (for thousands
grouping). -/
def chunk3 : List Char → List (List Char)
  | [] => []
  | a :: b :: c :: rest => [a, b, c] :: chunk3 rest
  | xs => [xs]

/-- Decimal rendering of a natural with thousands separators, as Python
`f"{n:,.0f}"` renders an integer. -/
def commaGroup (n : Nat) : String :=
  String.mk ((List.intersperse [','] (chunk3 (Nat.repr n).toList.reverse)).flatten.reverse)

/-- Python `f"{x:,.0f}"`: round half to even to an integer, render with
thousands separators and sign. -/
def fmtGrouped (x : ℚ) : String :=
  if roundHalfEven x < 0 then "-" ++ commaGroup (-(roundHalfEven x)).toNat
  else commaGroup (roundHalfEven x).toNat

/-- Render a nonnegative tenth-count `m` as the decimal `m/10` with one
digit after the point. -/
def fmtTenths (m : Nat) : String :=
  Nat.repr (m / 10) ++ "." ++ Nat.repr (m % 10)

/-- Python `f"{x:.1f}"`: one decimal place, ties to even. -/
def fmt1 (x : ℚ) : String :=
  if roundHalfEven (x * 10) < 0 then "-" ++ fmtTenths (-(roundHalfEven (x * 10))).toNat
  else fmtTenths (roundHalfEven (x * 10)).toNat

/-- `format_number` of `app.py` (lines 250-261).  The argument models one
float scalar: `none` is a NaN/missing value (`pd.isna`), `some q` a
finite value. -/
def format_number (num : Option ℚ) : String :=
  match num with
  | none => "N/A"
  | some q =>
    if 1000000000 ≤ q then fmt1 (q / 1000000000) ++ "B"
    else if 1000000 ≤ q then fmt1 (q / 1000000) ++ "M"
    else if 1000 ≤ q then fmt1 (q / 1000) ++ "K"
    else fmtGrouped q

/-- Default enriched row used with `List.getD` (never reached under the
index bounds established in the lemmas). -/
def enrichedDefault : EnrichedRow := enrichAux [] 0 cleanDefault

/-- The rows of the prepared table belonging to one location, in table
order: the partition of the output that downstream views select. -/
def partAt (rows : List RawRow) (L : String) : List EnrichedRow :=
  (prepare rows).filter fun e => e.location = L

/-- One location's cleaned, date-sorted series inside the sorted frame. -/
def locSeries (rows : List RawRow) (L : String) : List CleanRow :=
  (sortRows (rows.filterMap toClean)).filter fun s => s.location = L

/-- Lexicographic order on (location, date) pairs. -/
def pairLe (p q : String × Nat) : Prop :=
  p.1 < q.1 ∨ (p.1 = q.1 ∧ p.2 ≤ q.2)

/-- Uniqueness of dates per location in the raw input: two distinct rows
that share a non-missing location never share a date. -/
def uniqRaw (a b : RawRow) : Prop :=
  a.location = b.location → a.location = none ∨ a.date ≠ b.date

/-- The two-row example input of the specification (dates encoded as
`yyyymmdd` naturals). -/
def kenyaRows : List RawRow :=
  [{ location := some "Kenya", date := some 20200101, total_cases := some 10,
     total_deaths := some 1, population := some 1000000 },
   { location := some "Kenya", date := some 20200102, total_cases := some 15,
     total_deaths := some 2, population := some 1000000 }]

/-- A one-row input with `total_cases = 0` and `total_deaths = 5`: numpy
computes `5/0 = +inf` here, not NaN. -/
def zeroCaseRows : List RawRow :=
  [{ location := some "X", date := some 1, total_cases := some 0,
     total_deaths := some 5, population := some 1000 }]

/-- The cleaned first example row. -/
def kk1 : CleanRow :=
  { location := "Kenya", date := 20200101, total_cases := 10, total_deaths := 1,
    population := 1000000 }

/-- The cleaned second example row. -/
def kk2 : CleanRow :=
  { location := "Kenya", date := 20200102, total_cases := 15, total_deaths := 2,
    population := 1000000 }

/-- The cleaned zero-cases row. -/
def zx : CleanRow :=
  { location := "X", date := 1, total_cases := 0, total_deaths := 5, population := 1000 }

/-! ### Basic lemmas about the embedding -/

theorem roundHalfEven_of_lt (x : ℚ) (n : ℤ) (h1 : (n : ℚ) ≤ x) (h2 : x < n + 1/2) :
    roundHalfEven x = n := by
  have hf : ⌊x⌋ = n := by
    rw [Int.floor_eq_iff]
    exact ⟨h1, by linarith⟩
  rw [roundHalfEven, hf, if_pos]
  linarith

theorem roundHalfEven_of_gt (x : ℚ) (n : ℤ) (h1 : (n : ℚ) + 1/2 < x) (h2 : x < n + 1) :
    roundHalfEven x = n + 1 := by
  have hf : ⌊x⌋ = n := by
    rw [Int.floor_eq_iff]
    exact ⟨by linarith, by linarith⟩
  rw [roundHalfEven, hf, if_neg (by linarith), if_pos (by linarith)]

@[simp] theorem enrichAux_location (s : List CleanRow) (k : Nat) (r : CleanRow) :
    (enrichAux s k r).location = r.location := rfl

@[simp] theorem enrichAux_date (s : List CleanRow) (k : Nat) (r : CleanRow) :
    (enrichAux s k r).date = r.date := rfl

@[simp] theorem enrichAux_total_cases (s : List CleanRow) (k : Nat) (r : CleanRow) :
    (enrichAux s k r).total_cases = r.total_cases := rfl

@[simp] theorem enrichAux_total_deaths (s : List CleanRow) (k : Nat) (r : CleanRow) :
    (enrichAux s k r).total_deaths = r.total_deaths := rfl

@[simp] theorem enrichAux_population (s : List CleanRow) (k : Nat) (r : CleanRow) :
    (enrichAux s k r).population = r.population := rfl

theorem enrichAux_new_cases (s : List CleanRow) (k : Nat) (r : CleanRow) :
    (enrichAux s k r).new_cases = newCasesAt s k := rfl

theorem enrichAux_new_deaths (s : List CleanRow) (k : Nat) (r : CleanRow) :
    (enrichAux s k r).new_deaths = newDeathsAt s k := rfl

theorem length_enrichSeriesFrom (s : List CleanRow) (k : Nat) (rest : List CleanRow) :
    (enrichSeriesFrom s k rest).length = rest.length := by
  induction rest generalizing k with
  | nil => rfl
  | cons r rest ih => simp [enrichSeriesFrom, ih]

theorem getD_enrichSeriesFrom (s : List CleanRow) (k j : Nat) (rest : List CleanRow)
    (d : EnrichedRow) (h : j < rest.length) :
    (enrichSeriesFrom s k rest).getD j d = enrichAux s (k + j) (rest.getD j cleanDefault) := by
  induction rest generalizing k j with
  | nil => simp at h
  | cons r rest ih =>
    cases j with
    | zero => rfl
    | succ j =>
      have hj : j < rest.length := by
        simpa using h
      have hstep : k + 1 + j = k + (j + 1) := by omega
      simp only [enrichSeriesFrom, List.getD_cons_succ]
      rw [ih (k + 1) j hj, hstep]

theorem length_enrichFrom (all : List CleanRow) (rest seen : List CleanRow) :
    (enrichFrom all seen rest).length = rest.length := by
  induction rest generalizing seen with
  | nil => rfl
  | cons r rest ih => simp [enrichFrom, ih]

theorem mem_enrichFrom {e : EnrichedRow} (all : List CleanRow) (rest seen : List CleanRow)
    (h : e ∈ enrichFrom all seen rest) :
    ∃ r ∈ rest, ∃ s k, e = enrichAux s k r := by
  induction rest generalizing seen with
  | nil => simp [enrichFrom] at h
  | cons r rest ih =>
    rcases (List.mem_cons).1 h with he | he
    · exact ⟨r, List.mem_cons_self r rest, _, _, he⟩
    · rcases ih (seen ++ [r]) he with ⟨r', hr', s, k, hs⟩
      exact ⟨r', List.mem_cons_of_mem r hr', s, k, hs⟩

theorem map_pair_enrichFrom (all : List CleanRow) (rest seen : List CleanRow) :
    (enrichFrom all seen rest).map (fun e => (e.location, e.date)) =
      rest.map (fun r => (r.location, r.date)) := by
  induction rest generalizing seen with
  | nil => rfl
  | cons r rest ih => simp [enrichFrom, ih]

/-! ### Sorting commutes with location filters -/

theorem orderedInsert_eq_cons {α : Type} (r : α → α → Prop) [DecidableRel r]
    (x : α) (l : List α) (h : ∀ m ∈ l, r x m) :
    List.orderedInsert r x l = x :: l := by
  cases l with
  | nil => rfl
  | cons m l => exact List.orderedInsert_of_le r l (h m (List.mem_cons_self m l))

theorem filter_orderedInsert {α : Type} (r : α → α → Prop) [DecidableRel r] [IsTrans α r]
    (p : α → Bool) (x : α) (l : List α) (hs : List.Sorted r l) :
    (List.orderedInsert r x l).filter p =
      if p x then List.orderedInsert r x (l.filter p) else l.filter p := by
  induction l with
  | nil =>
    by_cases hp : p x <;> simp [List.orderedInsert, List.filter, hp]
  | cons a l ih =>
    have hs' : List.Sorted r l := hs.of_cons
    by_cases hxa : r x a
    · rw [List.orderedInsert_of_le r l hxa]
      by_cases hp : p x
      · rw [if_pos hp, List.filter_cons_of_pos hp]
        rw [orderedInsert_eq_cons r x ((a :: l).filter p)]
        intro m hm
        rcases (List.mem_cons).1 (List.mem_of_mem_filter hm) with hma | hml
        · exact hma ▸ hxa
        · exact Trans.trans hxa (List.rel_of_sorted_cons hs m hml)
      · rw [if_neg hp, List.filter_cons_of_neg hp]
    · simp only [List.orderedInsert, if_neg hxa]
      by_cases hpa : p a
      · rw [List.filter_cons_of_pos hpa, List.filter_cons_of_pos hpa, ih hs']
        by_cases hp : p x
        · rw [if_pos hp, if_pos hp]
          simp only [List.orderedInsert, if_neg hxa]
        · rw [if_neg hp, if_neg hp]
      · rw [List.filter_cons_of_neg hpa, List.filter_cons_of_neg hpa, ih hs']

theorem filter_insertionSort {α : Type} (r : α → α → Prop) [DecidableRel r]
    [IsTotal α r] [IsTrans α r] (p : α → Bool) (l : List α) :
    (List.insertionSort r l).filter p = List.insertionSort r (l.filter p) := by
  induction l with
  | nil => rfl
  | cons a l ih =>
    simp only [List.insertionSort]
    rw [filter_orderedInsert r p a _ (List.sorted_insertionSort r l), ih]
    by_cases hp : p a
    · rw [if_pos hp, List.filter_cons_of_pos hp]
      simp [List.insertionSort]
    · rw [if_neg hp, List.filter_cons_of_neg hp]

/-! ### The output partition of one location -/

theorem filter_enrichFrom (all : List CleanRow) (L : String) (rest : List CleanRow) :
    ∀ seen : List CleanRow,
      (enrichFrom all seen rest).filter (fun e => e.location = L) =
        enrichSeriesFrom (all.filter fun s => s.location = L)
          ((seen.filter fun s => s.location = L).length)
          (rest.filter fun s => s.location = L) := by
  induction rest with
  | nil => intro seen; rfl
  | cons r rest ih =>
    intro seen
    by_cases hr : r.location = L
    · have hfun : (fun s : CleanRow => decide (s.location = r.location)) =
          (fun s => decide (s.location = L)) := by
        funext s
        rw [hr]
      simp only [enrichFrom, List.filter_cons, enrichAux_location, hfun, ih (seen ++ [r]),
        List.filter_append]
      simp [enrichSeriesFrom, hr]
    · simp only [enrichFrom, List.filter_cons, enrichAux_location, ih (seen ++ [r]),
        List.filter_append]
      simp [enrichSeriesFrom, hr]

theorem partAt_eq (rows : List RawRow) (L : String) :
    partAt rows L = enrichSeries (locSeries rows L) := by
  unfold partAt prepare enrich enrichSeries locSeries
  rw [filter_enrichFrom]
  rfl

theorem length_partAt (rows : List RawRow) (L : String) :
    (partAt rows L).length = (locSeries rows L).length := by
  rw [partAt_eq]
  exact length_enrichSeriesFrom _ 0 _

theorem getD_partAt (rows : List RawRow) (L : String) (j : Nat) (d : EnrichedRow)
    (h : j < (locSeries rows L).length) :
    (partAt rows L).getD j d =
      enrichAux (locSeries rows L) j ((locSeries rows L).getD j cleanDefault) := by
  rw [partAt_eq]
  unfold enrichSeries
  rw [getD_enrichSeriesFrom _ 0 j _ d h, Nat.zero_add]

theorem mem_windowIdx (k j : Nat) : j ∈ windowIdx k ↔ k - 6 ≤ j ∧ j ≤ k := by
  unfold windowIdx
  rw [List.mem_range']
  constructor
  · rintro ⟨i, hi, rfl⟩
    omega
  · intro ⟨h1, h2⟩
    exact ⟨j - (k - 6), by omega, by omega⟩

/-! ### Claim theorems -/

/-- C2: in every location partition of the prepared output, `new_cases`
(and `new_deaths`) is 0 at the first row and the first difference of
`total_cases` (resp. `total_deaths`) at every later row. -/
theorem new_counts_are_first_differences (rows : List RawRow) (L : String) (i : Nat)
    (h : i < (partAt rows L).length) :
    ((partAt rows L).getD i enrichedDefault).new_cases =
      (if i = 0 then 0
       else ((partAt rows L).getD i enrichedDefault).total_cases -
         ((partAt rows L).getD (i - 1) enrichedDefault).total_cases) ∧
    ((partAt rows L).getD i enrichedDefault).new_deaths =
      (if i = 0 then 0
       else ((partAt rows L).getD i enrichedDefault).total_deaths -
         ((partAt rows L).getD (i - 1) enrichedDefault).total_deaths) := by
  have hl : i < (locSeries rows L).length := by
    rw [← length_partAt rows L]
    exact h
  have hl' : i - 1 < (locSeries rows L).length := lt_of_le_of_lt (Nat.sub_le i 1) hl
  rw [getD_partAt rows L i _ hl, getD_partAt rows L (i - 1) _ hl']
  by_cases hi : i = 0
  · simp [hi, enrichAux_new_cases, enrichAux_new_deaths, newCasesAt, newDeathsAt]
  · simp only [enrichAux_new_cases, enrichAux_new_deaths, enrichAux_total_cases,
      enrichAux_total_deaths, newCasesAt, newDeathsAt, if_neg hi]
    exact ⟨trivial, trivial⟩

/-- C3: in every location partition of the prepared output,
`new_cases_7day` (and `new_deaths_7day`) at index `i` is the arithmetic
mean of `new_cases` (resp. `new_deaths`) over the trailing window of
indices `max 0 (i-6) .. i` of that partition. -/
theorem rolling_7day_is_trailing_mean (rows : List RawRow) (L : String) (i : Nat)
    (h : i < (partAt rows L).length) :
    ((partAt rows L).getD i enrichedDefault).new_cases_7day =
      ((windowIdx i).map fun j => ((partAt rows L).getD j enrichedDefault).new_cases).sum /
        ((windowIdx i).length : ℚ) ∧
    ((partAt rows L).getD i enrichedDefault).new_deaths_7day =
      ((windowIdx i).map fun j => ((partAt rows L).getD j enrichedDefault).new_deaths).sum /
        ((windowIdx i).length : ℚ) := by
  have hl : i < (locSeries rows L).length := by
    rw [← length_partAt rows L]
    exact h
  have hc : ∀ j ∈ windowIdx i,
      ((partAt rows L).getD j enrichedDefault).new_cases =
        newCasesAt (locSeries rows L) j := by
    intro j hj
    have hji : j ≤ i := ((mem_windowIdx i j).1 hj).2
    rw [getD_partAt rows L j _ (lt_of_le_of_lt hji hl), enrichAux_new_cases]
  have hd : ∀ j ∈ windowIdx i,
      ((partAt rows L).getD j enrichedDefault).new_deaths =
        newDeathsAt (locSeries rows L) j := by
    intro j hj
    have hji : j ≤ i := ((mem_windowIdx i j).1 hj).2
    rw [getD_partAt rows L j _ (lt_of_le_of_lt hji hl), enrichAux_new_deaths]
  rw [getD_partAt rows L i _ hl]
  constructor
  · rw [List.map_congr_left hc]
    rfl
  · rw [List.map_congr_left hd]
    rfl

theorem toClean_some_fields {raw : RawRow} {c : CleanRow} (h : toClean raw = some c) :
    raw.location = some c.location ∧ raw.date = some c.date ∧
      raw.total_cases = some c.total_cases ∧ raw.total_deaths = some c.total_deaths ∧
      raw.population = some c.population := by
  rcases raw with ⟨lo, da, tc, td, po⟩
  cases lo <;> cases da <;> cases tc <;> cases td <;> cases po <;>
    simp_all [toClean]
  subst h
  simp

theorem mem_prepare {rows : List RawRow} {e : EnrichedRow} (he : e ∈ prepare rows) :
    ∃ r, r ∈ sortRows (rows.filterMap toClean) ∧ ∃ s k, e = enrichAux s k r := by
  unfold prepare enrich at he
  obtain ⟨r, hr, s, k, hs⟩ := mem_enrichFrom _ _ _ he
  exact ⟨r, hr, s, k, hs⟩

theorem cfr_fdiv_cases (td tc : ℚ) :
    eround2 (escale (fdiv td tc) 100) =
      if tc = 0 then
        (if td = 0 then EVal.nan else if 0 < td then EVal.inf else EVal.ninf)
      else EVal.fin (round2 (td / tc * 100)) := by
  by_cases hc : tc = 0
  · by_cases hd : td = 0
    · norm_num [fdiv, escale, eround2, hc, hd]
    · by_cases hp : 0 < td
      · norm_num [fdiv, escale, eround2, hc, hd, hp]
      · norm_num [fdiv, escale, eround2, hc, hd, hp]
  · norm_num [fdiv, escale, eround2, hc]

theorem ppm_fdiv_cases (x pop : ℚ) (hp : pop ≠ 0) :
    eround2 (escale (fdiv x pop) 1000000) = EVal.fin (round2 (x * 1000000 / pop)) := by
  rw [fdiv, if_neg hp]
  rw [show escale (EVal.fin (x / pop)) 1000000 = EVal.fin (x / pop * 1000000) from rfl]
  rw [div_mul_eq_mul_div]
  rfl

theorem prepare_kenya_eval :
    prepare kenyaRows = [enrichAux [kk1, kk2] 0 kk1, enrichAux [kk1, kk2] 1 kk2] := by
  simp [prepare, kenyaRows, toClean, sortRows, List.insertionSort, List.orderedInsert,
    rowLe, enrich, enrichFrom, kk1, kk2]

theorem prepare_zeroCase_eval : prepare zeroCaseRows = [enrichAux [zx] 0 zx] := by
  simp [prepare, zeroCaseRows, toClean, sortRows, List.insertionSort, List.orderedInsert,
    rowLe, enrich, enrichFrom, zx]

/-- C1 (amended): `case_fatality_rate` is NaN exactly when both
`total_cases` and `total_deaths` are 0; with `total_cases = 0` and
positive (resp. negative) `total_deaths` it is `+inf` (resp. `-inf`,
numpy division semantics); with a nonzero denominator it is
`round(total_deaths/total_cases*100, 2)`.  The function is total, so a
zero denominator never raises. -/
theorem case_fatality_rate_zero_denominator (rows : List RawRow) (e : EnrichedRow)
    (he : e ∈ prepare rows) :
    (e.case_fatality_rate = EVal.nan ↔ (e.total_cases = 0 ∧ e.total_deaths = 0)) ∧
    (e.total_cases = 0 → 0 < e.total_deaths → e.case_fatality_rate = EVal.inf) ∧
    (e.total_cases = 0 → e.total_deaths < 0 → e.case_fatality_rate = EVal.ninf) ∧
    (e.total_cases ≠ 0 →
      e.case_fatality_rate = EVal.fin (round2 (e.total_deaths / e.total_cases * 100))) := by
  obtain ⟨r, hr, s, k, rfl⟩ := mem_prepare he
  have hcfr : (enrichAux s k r).case_fatality_rate =
      eround2 (escale (fdiv r.total_deaths r.total_cases) 100) := rfl
  rw [hcfr, cfr_fdiv_cases]
  simp only [enrichAux_total_cases, enrichAux_total_deaths]
  by_cases hc : r.total_cases = 0
  · rw [if_pos hc]
    by_cases hd : r.total_deaths = 0
    · rw [if_pos hd]
      refine ⟨by simp [hc, hd], ?_, ?_, ?_⟩
      · intro _ hpos
        rw [hd] at hpos
        exact absurd hpos (lt_irrefl 0)
      · intro _ hneg
        rw [hd] at hneg
        exact absurd hneg (lt_irrefl 0)
      · intro hne
        exact absurd hc hne
    · rw [if_neg hd]
      by_cases hp : 0 < r.total_deaths
      · rw [if_pos hp]
        refine ⟨by simp [hc, hd], fun _ _ => rfl, ?_, fun hne => absurd hc hne⟩
        intro _ hneg
        exact absurd hp (not_lt.2 (le_of_lt hneg))
      · rw [if_neg hp]
        refine ⟨by simp [hc, hd], ?_, fun _ _ => rfl, fun hne => absurd hc hne⟩
        intro _ hpos
        exact absurd hpos hp
  · rw [if_neg hc]
    exact ⟨by simp [hc], fun h0 => absurd h0 hc, fun h0 => absurd h0 hc, fun _ => rfl⟩

/-- Counterexample to C1 as stated: it is not true that
`case_fatality_rate` is NaN whenever `total_cases = 0` — on the cleaned
row (X, 1, cases 0, deaths 5, population 1000) the field is `+inf`. -/
theorem case_fatality_rate_nan_iff_zero_refuted :
    ¬ ∀ (rows : List RawRow), ∀ e ∈ prepare rows,
        (e.case_fatality_rate = EVal.nan ↔ e.total_cases = 0) := by
  intro hcl
  have hmem : enrichAux [zx] 0 zx ∈ prepare zeroCaseRows := by
    rw [prepare_zeroCase_eval]
    exact List.mem_singleton.2 rfl
  have h := (hcl zeroCaseRows _ hmem).2 rfl
  have hval : (enrichAux [zx] 0 zx).case_fatality_rate = EVal.inf := by
    show eround2 (escale (fdiv zx.total_deaths zx.total_cases) 100) = EVal.inf
    norm_num [zx, fdiv, escale, eround2]
  rw [hval] at h
  exact EVal.noConfusion h

/-- Witness for C1 (amended): the `+inf` branch at the zero-cases row. -/
theorem case_fatality_rate_zero_denominator_witness :
    (enrichAux [zx] 0 zx).case_fatality_rate = EVal.inf :=
  (case_fatality_rate_zero_denominator zeroCaseRows _
      (by rw [prepare_zeroCase_eval]; exact List.mem_singleton.2 rfl)).2.1
    rfl (by rw [enrichAux_total_deaths]; norm_num [zx])

/-- C5: every row of the prepared output originates in an input row whose
`location`, `date`, `total_cases`, `total_deaths` and `population` are
all non-null — rows with a null among these never reach the output. -/
theorem no_null_rows_in_output (rows : List RawRow) (e : EnrichedRow)
    (he : e ∈ prepare rows) :
    ∃ raw ∈ rows, raw.location = some e.location ∧ raw.date = some e.date ∧
      raw.total_cases = some e.total_cases ∧ raw.total_deaths = some e.total_deaths ∧
      raw.population = some e.population := by
  obtain ⟨r, hr, s, k, rfl⟩ := mem_prepare he
  have hr' : r ∈ rows.filterMap toClean := by
    unfold sortRows at hr
    exact (List.mem_insertionSort rowLe).1 hr
  obtain ⟨raw, hraw, hc⟩ := List.mem_filterMap.1 hr'
  obtain ⟨h1, h2, h3, h4, h5⟩ := toClean_some_fields hc
  exact ⟨raw, hraw, by simpa using h1, by simpa using h2, by simpa using h3,
    by simpa using h4, by simpa using h5⟩

/-- Witness for C5: the provenance statement instantiated at the first
output row of the two-row example input. -/
theorem no_null_rows_in_output_witness :
    ∃ raw ∈ kenyaRows, raw.location = some (enrichAux [kk1, kk2] 0 kk1).location ∧
      raw.date = some (enrichAux [kk1, kk2] 0 kk1).date ∧
      raw.total_cases = some (enrichAux [kk1, kk2] 0 kk1).total_cases ∧
      raw.total_deaths = some (enrichAux [kk1, kk2] 0 kk1).total_deaths ∧
      raw.population = some (enrichAux [kk1, kk2] 0 kk1).population :=
  no_null_rows_in_output kenyaRows _
    (by rw [prepare_kenya_eval]; exact List.mem_cons_self _ _)

/-- Witness for C2: the first-difference law instantiated at row 1 of the
Kenya partition of the two-row example input. -/
theorem new_counts_are_first_differences_witness :
    ((partAt kenyaRows "Kenya").getD 1 enrichedDefault).new_cases =
      (if (1 : Nat) = 0 then 0
       else ((partAt kenyaRows "Kenya").getD 1 enrichedDefault).total_cases -
         ((partAt kenyaRows "Kenya").getD (1 - 1) enrichedDefault).total_cases) ∧
    ((partAt kenyaRows "Kenya").getD 1 enrichedDefault).new_deaths =
      (if (1 : Nat) = 0 then 0
       else ((partAt kenyaRows "Kenya").getD 1 enrichedDefault).total_deaths -
         ((partAt kenyaRows "Kenya").getD (1 - 1) enrichedDefault).total_deaths) :=
  new_counts_are_first_differences kenyaRows "Kenya" 1 (by
    rw [length_partAt]
    simp [locSeries, sortRows, kenyaRows, toClean, List.insertionSort, List.orderedInsert, rowLe])

theorem clean_filter (rows : List RawRow) (L : String) :
    (rows.filter fun r => r.location = some L).filterMap toClean =
      (rows.filterMap toClean).filter fun c => c.location = L := by
  induction rows with
  | nil => rfl
  | cons r rows ih =>
    by_cases hq : r.location = some L
    · rcases hc : toClean r with _ | c
      · simp [List.filter_cons, List.filterMap_cons, hq, hc, ih]
      · have hcl : c.location = L := by
          have h1 := (toClean_some_fields hc).1
          rw [hq] at h1
          exact (Option.some.inj h1).symm
        simp [List.filter_cons, List.filterMap_cons, hq, hc, ih, hcl]
    · rcases hc : toClean r with _ | c
      · simp [List.filter_cons, List.filterMap_cons, hq, hc, ih]
      · have hcl : ¬ (c.location = L) := by
          intro hl
          apply hq
          rw [(toClean_some_fields hc).1, hl]
        simp [List.filter_cons, List.filterMap_cons, hq, hc, ih, hcl]

theorem enrichFrom_const_loc (lst : List CleanRow) (L : String)
    (hall : ∀ r ∈ lst, r.location = L) (rest : List CleanRow) :
    ∀ seen : List CleanRow, (∀ r ∈ rest, r.location = L) → (∀ r ∈ seen, r.location = L) →
      enrichFrom lst seen rest = enrichSeriesFrom lst seen.length rest := by
  induction rest with
  | nil =>
    intro seen _ _
    rfl
  | cons r rest ih =>
    intro seen hrest hseen
    have hr : r.location = L := hrest r (List.mem_cons_self r rest)
    have hlst : (lst.filter fun s => s.location = r.location) = lst := by
      rw [List.filter_eq_self]
      intro a ha
      simp [hall a ha, hr]
    have hseenf : (seen.filter fun s => s.location = r.location) = seen := by
      rw [List.filter_eq_self]
      intro a ha
      simp [hseen a ha, hr]
    simp only [enrichFrom, hlst, hseenf, enrichSeriesFrom]
    rw [ih (seen ++ [r]) (fun x hx => hrest x (List.mem_cons_of_mem r hx)) ?_]
    · rw [List.length_append]
      rfl
    · intro x hx
      rcases List.mem_append.1 hx with h | h
      · exact hseen x h
      · rw [List.mem_singleton.1 h]
        exact hr

/-- C9: derived fields are computed per-location: the location-`L` rows
of the prepared output coincide with the output of the pipeline run on
only the location-`L` input rows. -/
theorem partition_locality (rows : List RawRow) (L : String) :
    (prepare rows).filter (fun e => e.location = L) =
      prepare (rows.filter fun r => r.location = some L) := by
  have hsort : locSeries rows L =
      sortRows ((rows.filter fun r => r.location = some L).filterMap toClean) := by
    unfold locSeries sortRows
    rw [filter_insertionSort rowLe _ (rows.filterMap toClean), clean_filter]
  have hall : ∀ r ∈ sortRows ((rows.filter fun r => r.location = some L).filterMap toClean),
      r.location = L := by
    intro r hr
    rw [← hsort] at hr
    unfold locSeries at hr
    simpa using List.of_mem_filter hr
  show partAt rows L = _
  rw [partAt_eq, hsort]
  unfold prepare enrich enrichSeries
  rw [enrichFrom_const_loc _ L hall _ [] hall (by intro x hx; simp at hx)]
  rfl

/-- C6: the prepared output is sorted by (location, date) ascending, and
when the input has unique dates per location, dates are strictly
increasing inside every location partition of the output. -/
theorem output_sorted_by_location_date (rows : List RawRow) :
    List.Sorted pairLe ((prepare rows).map fun e => (e.location, e.date)) ∧
    (rows.Pairwise uniqRaw →
      ∀ i j : Nat, ∀ _hi : i < (prepare rows).length, ∀ _hj : j < (prepare rows).length,
        i < j →
        ((prepare rows).getD i enrichedDefault).location =
          ((prepare rows).getD j enrichedDefault).location →
        ((prepare rows).getD i enrichedDefault).date <
          ((prepare rows).getD j enrichedDefault).date) := by
  have hmap : (prepare rows).map (fun e => (e.location, e.date)) =
      (sortRows (rows.filterMap toClean)).map (fun r => (r.location, r.date)) := by
    unfold prepare enrich
    exact map_pair_enrichFrom _ _ _
  have hsorted : List.Sorted rowLe (sortRows (rows.filterMap toClean)) :=
    List.sorted_insertionSort rowLe _
  constructor
  · rw [hmap]
    exact List.Pairwise.map _ (fun a b h => h) hsorted
  · intro hu i j hi hj hij hloc
    have h1 : (rows.filterMap toClean).Pairwise
        (fun c d : CleanRow => c.location = d.location → c.date ≠ d.date) := by
      rw [List.pairwise_filterMap]
      refine hu.imp ?_
      intro a b hab c hc d hd hcd
      obtain ⟨ha1, ha2, _, _, _⟩ := toClean_some_fields hc
      obtain ⟨hb1, hb2, _, _, _⟩ := toClean_some_fields hd
      have hll : a.location = b.location := by rw [ha1, hb1, hcd]
      rcases hab hll with hnone | hdate
      · rw [ha1] at hnone
        exact Option.noConfusion hnone
      · intro hdd
        apply hdate
        rw [ha2, hb2, hdd]
    have hsymm : ∀ {x y : CleanRow},
        (x.location = y.location → x.date ≠ y.date) →
        (y.location = x.location → y.date ≠ x.date) := by
      intro x y hxy hl hd
      exact hxy hl.symm hd.symm
    have h2 : (sortRows (rows.filterMap toClean)).Pairwise
        (fun c d : CleanRow => c.location = d.location → c.date ≠ d.date) :=
      ((List.perm_insertionSort rowLe _).pairwise_iff hsymm).2 h1
    have h3 : (sortRows (rows.filterMap toClean)).Pairwise
        (fun c d : CleanRow => c.location = d.location → c.date < d.date) := by
      refine (List.Pairwise.and hsorted h2).imp ?_
      intro a b hab heq
      rcases hab.1 with hlt | ⟨_, hle⟩
      · rw [heq] at hlt
        exact absurd hlt (lt_irrefl _)
      · exact lt_of_le_of_ne hle (hab.2 heq)
    have h4 : (prepare rows).Pairwise
        (fun e f : EnrichedRow => e.location = f.location → e.date < f.date) := by
      have h5 : ((prepare rows).map (fun e => (e.location, e.date))).Pairwise
          (fun p q : String × Nat => p.1 = q.1 → p.2 < q.2) := by
        rw [hmap]
        exact List.Pairwise.map _ (fun a b h => h) h3
      exact List.pairwise_map.1 h5
    rw [List.getD_eq_getElem _ _ hi, List.getD_eq_getElem _ _ hj] at hloc ⊢
    exact List.pairwise_iff_getElem.1 h4 i j hi hj hij hloc

/-- Witness for C6: sortedness of the example output together with the
strict date increase between its two Kenya rows. -/
theorem output_sorted_by_location_date_witness :
    List.Sorted pairLe ((prepare kenyaRows).map fun e => (e.location, e.date)) ∧
    ((prepare kenyaRows).getD 0 enrichedDefault).date <
      ((prepare kenyaRows).getD 1 enrichedDefault).date :=
  ⟨(output_sorted_by_location_date kenyaRows).1,
    (output_sorted_by_location_date kenyaRows).2
      (by simp [kenyaRows, uniqRaw])
      0 1 (by rw [prepare_kenya_eval]; norm_num) (by rw [prepare_kenya_eval]; norm_num)
      (by norm_num)
      (by rw [prepare_kenya_eval]; rfl)⟩

/-- Witness for C3: the trailing-mean law instantiated at row 1 of the
Kenya partition of the two-row example input. -/
theorem rolling_7day_is_trailing_mean_witness :
    ((partAt kenyaRows "Kenya").getD 1 enrichedDefault).new_cases_7day =
      ((windowIdx 1).map fun j =>
        ((partAt kenyaRows "Kenya").getD j enrichedDefault).new_cases).sum /
        ((windowIdx 1).length : ℚ) ∧
    ((partAt kenyaRows "Kenya").getD 1 enrichedDefault).new_deaths_7day =
      ((windowIdx 1).map fun j =>
        ((partAt kenyaRows "Kenya").getD j enrichedDefault).new_deaths).sum /
        ((windowIdx 1).length : ℚ) :=
  rolling_7day_is_trailing_mean kenyaRows "Kenya" 1 (by
    rw [length_partAt]
    simp [locSeries, sortRows, kenyaRows, toClean, List.insertionSort, List.orderedInsert, rowLe])

/-- C4: on the two-row example input the pipeline yields
`new_cases = [0, 5]`, `case_fatality_rate = [10.0, 13.33]` and
`cases_per_million = [10.0, 15.0]`; in general, with a nonzero
population, `cases_per_million` (resp. `deaths_per_million`) is the
counter times 1e6 over the population, rounded to 2 decimals. -/
theorem kenya_end_to_end :
    (prepare kenyaRows).map (fun e => e.new_cases) = [0, 5] ∧
    (prepare kenyaRows).map (fun e => e.case_fatality_rate) =
      [EVal.fin 10, EVal.fin (1333/100)] ∧
    (prepare kenyaRows).map (fun e => e.cases_per_million) = [EVal.fin 10, EVal.fin 15] ∧
    (∀ rows : List RawRow, ∀ e ∈ prepare rows, e.population ≠ 0 →
      e.cases_per_million = EVal.fin (round2 (e.total_cases * 1000000 / e.population)) ∧
      e.deaths_per_million = EVal.fin (round2 (e.total_deaths * 1000000 / e.population))) := by
  refine ⟨?_, ?_, ?_, ?_⟩
  · rw [prepare_kenya_eval]
    simp [enrichAux, newCasesAt, kk1, kk2, cleanDefault]
    norm_num
  · rw [prepare_kenya_eval]
    simp [enrichAux, fdiv, escale, eround2, round2, kk1, kk2]
    norm_num
    constructor
    · rw [show roundHalfEven 1000 = 1000 from
        roundHalfEven_of_lt _ _ (by norm_num) (by norm_num)]
      norm_num
    · rw [show roundHalfEven (4000/3) = 1333 from
        roundHalfEven_of_lt _ _ (by norm_num) (by norm_num)]
      norm_num
  · rw [prepare_kenya_eval]
    simp [enrichAux, fdiv, escale, eround2, round2, kk1, kk2]
    norm_num
    constructor
    · rw [show roundHalfEven 1000 = 1000 from
        roundHalfEven_of_lt _ _ (by norm_num) (by norm_num)]
      norm_num
    · rw [show roundHalfEven 1500 = 1500 from
        roundHalfEven_of_lt _ _ (by norm_num) (by norm_num)]
      norm_num
  · intro rows e he hp
    obtain ⟨r, hr, s, k, rfl⟩ := mem_prepare he
    rw [enrichAux_population] at hp
    constructor
    · show eround2 (escale (fdiv r.total_cases r.population) 1000000) = _
      rw [ppm_fdiv_cases _ _ hp]
      rfl
    · show eround2 (escale (fdiv r.total_deaths r.population) 1000000) = _
      rw [ppm_fdiv_cases _ _ hp]
      rfl

/-- Witness for C4: the per-million law instantiated at the first output
row of the example input. -/
theorem kenya_end_to_end_witness :
    (enrichAux [kk1, kk2] 0 kk1).cases_per_million =
      EVal.fin (round2 ((enrichAux [kk1, kk2] 0 kk1).total_cases * 1000000 /
        (enrichAux [kk1, kk2] 0 kk1).population)) ∧
    (enrichAux [kk1, kk2] 0 kk1).deaths_per_million =
      EVal.fin (round2 ((enrichAux [kk1, kk2] 0 kk1).total_deaths * 1000000 /
        (enrichAux [kk1, kk2] 0 kk1).population)) :=
  kenya_end_to_end.2.2.2 kenyaRows _
    (by rw [prepare_kenya_eval]; exact List.mem_cons_self _ _)
    (by rw [enrichAux_population]; norm_num [kk1])

/-- C7: `format_number` renders `≥ 1e9` with a B suffix, `≥ 1e6` with M,
`≥ 1e3` with K (one decimal each), anything below 1e3 as a
thousands-grouped integer, NaN as "N/A"; and the four concrete examples
evaluate as specified. -/
theorem format_number_compact :
    (∀ q : ℚ, 1000000000 ≤ q → format_number (some q) = fmt1 (q / 1000000000) ++ "B") ∧
    (∀ q : ℚ, 1000000 ≤ q → q < 1000000000 →
      format_number (some q) = fmt1 (q / 1000000) ++ "M") ∧
    (∀ q : ℚ, 1000 ≤ q → q < 1000000 → format_number (some q) = fmt1 (q / 1000) ++ "K") ∧
    (∀ q : ℚ, q < 1000 → format_number (some q) = fmtGrouped q) ∧
    format_number none = "N/A" ∧
    format_number (some 999) = "999" ∧
    format_number (some 1500) = "1.5K" ∧
    format_number (some 2300000) = "2.3M" := by
  refine ⟨?_, ?_, ?_, ?_, rfl, ?_, ?_, ?_⟩
  · intro q h
    simp only [format_number]
    rw [if_pos h]
  · intro q h1 h2
    simp only [format_number]
    rw [if_neg (not_le.2 h2), if_pos h1]
  · intro q h1 h2
    simp only [format_number]
    rw [if_neg (not_le.2 (lt_of_lt_of_le h2 (by norm_num))), if_neg (not_le.2 h2),
      if_pos h1]
  · intro q h
    simp only [format_number]
    rw [if_neg (not_le.2 (lt_of_lt_of_le h (by norm_num))),
      if_neg (not_le.2 (lt_of_lt_of_le h (by norm_num))), if_neg (not_le.2 h)]
  · simp only [format_number]
    rw [if_neg (by norm_num), if_neg (by norm_num), if_neg (by norm_num)]
    unfold fmtGrouped
    rw [show roundHalfEven (999 : ℚ) = 999 from
      roundHalfEven_of_lt _ _ (by norm_num) (by norm_num)]
    rw [if_neg (by norm_num)]
    rfl
  · simp only [format_number]
    rw [if_neg (by norm_num), if_neg (by norm_num), if_pos (by norm_num)]
    unfold fmt1
    rw [show ((1500 : ℚ) / 1000 * 10) = 15 by norm_num]
    rw [show roundHalfEven (15 : ℚ) = 15 from
      roundHalfEven_of_lt _ _ (by norm_num) (by norm_num)]
    rw [if_neg (by norm_num)]
    rfl
  · simp only [format_number]
    rw [if_neg (by norm_num), if_pos (by norm_num)]
    unfold fmt1
    rw [show ((2300000 : ℚ) / 1000000 * 10) = 23 by norm_num]
    rw [show roundHalfEven (23 : ℚ) = 23 from
      roundHalfEven_of_lt _ _ (by norm_num) (by norm_num)]
    rw [if_neg (by norm_num)]
    rfl

/-- Witness for C7: each suffix branch applied at a concrete value. -/
theorem format_number_compact_witness :
    format_number (some 2000000000) = fmt1 ((2000000000 : ℚ) / 1000000000) ++ "B" ∧
    format_number (some 2000000) = fmt1 ((2000000 : ℚ) / 1000000) ++ "M" ∧
    format_number (some 2000) = fmt1 ((2000 : ℚ) / 1000) ++ "K" ∧
    format_number (some 500) = fmtGrouped 500 :=
  ⟨format_number_compact.1 2000000000 (by norm_num),
   format_number_compact.2.1 2000000 (by norm_num) (by norm_num),
   format_number_compact.2.2.1 2000 (by norm_num) (by norm_num),
   format_number_compact.2.2.2.1 500 (by norm_num)⟩

/-- C8: when the source cannot be parsed, `load_and_prepare_data`
returns the empty table and logs the failure (the function is total, so
nothing is raised to the caller). -/
theorem load_failure_yields_empty_logged (msg : String) :
    load_and_prepare_data (Except.error msg) = ([], ["Error loading data: " ++ msg]) := rfl

/-- C10: every negative input falls through all three suffix thresholds
to the thousands-grouped integer branch of `format_number`. -/
theorem negative_never_suffixed (q : ℚ) (h : q < 0) :
    format_number (some q) = fmtGrouped q := by
  simp only [format_number]
  rw [if_neg (not_le.2 (lt_trans h (by norm_num))),
    if_neg (not_le.2 (lt_trans h (by norm_num))),
    if_neg (not_le.2 (lt_trans h (by norm_num)))]

/-- Witness for C10: `-2e9` is rendered grouped, with no B/M/K suffix. -/
theorem negative_never_suffixed_witness :
    format_number (some (-2000000000 : ℚ)) = fmtGrouped (-2000000000) ∧
    fmtGrouped (-2000000000 : ℚ) = "-2,000,000,000" := by
  refine ⟨negative_never_suffixed (-2000000000) (by norm_num), ?_⟩
  unfold fmtGrouped
  rw [show roundHalfEven (-2000000000 : ℚ) = -2000000000 from
    roundHalfEven_of_lt _ _ (by norm_num) (by norm_num)]
  rw [if_pos (by norm_num)]
  rfl

end Covid
